import Mathlib

/-!
Shallow embedding of the maimai capture-to-GPIO pipeline
(`src/main_camera.rs`, `src/main_camera_nannou.rs`).

Pins are modelled as pairs of a sysfs pin number and a `PinState`
(exported flag, direction, value).  Fallible sysfs operations are
modelled through a fault oracle `Faults` that, per pin number and per
operation, either succeeds or yields an error string (the underlying
cause).  Errors mirror the Rust code: `GPIO::init` wraps an export
failure in an `io::Error` whose message names the pin, while the other
operations propagate the raw cause via `?`.
-/

namespace Maimai

/-! Model definitions, translated from the source in source order. -/

/-- Pin direction, as in `sysfs_gpio::Direction`. -/
inductive Dir
  | input
  | output
deriving DecidableEq, Repr

/-- State of one GPIO pin: whether it is exported, its direction and its
logical value (0 or 1). -/
structure PinState where
  exported : Bool
  direction : Dir
  value : Nat
deriving DecidableEq, Repr

/-- A GPIO bank: pins in index order, each with its sysfs pin number. -/
abbrev Bank := List (Nat × PinState)

/-- Embeds `GPIO::new()`: builds handles for pins 11..=18; the hardware state of
each pin is whatever it already was, here `p0`. -/
def newPins (p0 : PinState) : Bank :=
  (List.range 8).map (fun i => (11 + i, p0))

/-- Fault oracle: for each sysfs operation and pin number, `none` means
the operation succeeds, `some cause` that it fails with that cause. -/
structure Faults where
  exportErr : Nat → Option String
  getDirErr : Nat → Option String
  setDirErr : Nat → Option String
  getValErr : Nat → Option String
  setValErr : Nat → Option String

/-- The oracle on which every sysfs operation succeeds. -/
def noneFaults : Faults :=
  ⟨fun _ => none, fun _ => none, fun _ => none, fun _ => none, fun _ => none⟩

/-- Errors escaping `GPIO` methods: an export failure is wrapped with the
pin number and cause (`io::Error::new(.., format!("Cannot export pin ..")`),
every other sysfs failure is propagated raw via `?`. -/
inductive GErr
  | exportFail (pinNo : Nat) (cause : String)
  | rawFail (cause : String)
deriving DecidableEq, Repr

/-- The pin number an error message identifies, if any. -/
def errPinNo : GErr → Option Nat
  | GErr.exportFail no _ => some no
  | GErr.rawFail _ => none

/-- Write events performed on the hardware (used to state idempotence:
a run that performs no state-changing writes has an empty event list). -/
inductive WriteEv
  | wExport (pinNo : Nat)
  | wSetDir (pinNo : Nat) (d : Dir)
  | wSetVal (pinNo : Nat) (v : Nat)
deriving DecidableEq, Repr

/-- Result of a sequence of pin operations: the pin's state afterwards,
the writes performed, and the error that aborted the sequence, if any. -/
abbrev StepRes := PinState × List WriteEv × Option GErr

/-- Embeds `if !pin.is_exported() ... pin.export().map_err(..)?`. -/
def exportStep (f : Faults) (no : Nat) (p : PinState) : StepRes :=
  if p.exported then (p, [], none)
  else
    match f.exportErr no with
    | some e => (p, [], some (GErr.exportFail no e))
    | none => ({ p with exported := true }, [WriteEv.wExport no], none)

/-- Embeds `if pin.get_direction()? != Direction::Out ... set_direction(Direction::Out)?`. -/
def dirStep (f : Faults) (no : Nat) (p : PinState) : StepRes :=
  match f.getDirErr no with
  | some e => (p, [], some (GErr.rawFail e))
  | none =>
    if p.direction = Dir.output then (p, [], none)
    else
      match f.setDirErr no with
      | some e => (p, [], some (GErr.rawFail e))
      | none => ({ p with direction := Dir.output }, [WriteEv.wSetDir no Dir.output], none)

/-- Embeds `if pin.get_value()? != 1 ... pin.set_value(1)?`. -/
def valStep (f : Faults) (no : Nat) (p : PinState) : StepRes :=
  match f.getValErr no with
  | some e => (p, [], some (GErr.rawFail e))
  | none =>
    if p.value = 1 then (p, [], none)
    else
      match f.setValErr no with
      | some e => (p, [], some (GErr.rawFail e))
      | none => ({ p with value := 1 }, [WriteEv.wSetVal no 1], none)

/-- The per-pin body of `GPIO::init`: export, then direction, then idle
value, each aborting the chain via `?` on failure. -/
def initPin (f : Faults) (no : Nat) (p : PinState) : StepRes :=
  match exportStep f no p with
  | (p1, w1, some e) => (p1, w1, some e)
  | (p1, w1, none) =>
    match dirStep f no p1 with
    | (p2, w2, some e) => (p2, w1 ++ w2, some e)
    | (p2, w2, none) =>
      match valStep f no p2 with
      | (p3, w3, e3) => (p3, w1 ++ w2 ++ w3, e3)

/-- Embeds `GPIO::init`: initialize the pins in index order; the first failure
aborts the loop (state of later pins untouched), and the bank state so
far is kept (no rollback). -/
def initBank (f : Faults) : Bank → Bank × List WriteEv × Option GErr
  | [] => ([], [], none)
  | (no, p) :: rest =>
    match initPin f no p with
    | (p', ws, some e) => ((no, p') :: rest, ws, some e)
    | (p', ws, none) =>
      match initBank f rest with
      | (rest', ws', e) => ((no, p') :: rest', ws ++ ws', e)

/-- A fully initialized pin: exported, direction out, idle value 1. -/
def initState : PinState := ⟨true, Dir.output, 1⟩

/-- Every sysfs operation succeeds under the oracle. -/
def NoFaults (f : Faults) : Prop :=
  ∀ no, f.exportErr no = none ∧ f.getDirErr no = none ∧ f.setDirErr no = none ∧
    f.getValErr no = none ∧ f.setValErr no = none

/-- The pure state change of `GPIO::signal`'s loop from loop index `n` on:
`let value = if n > level { 1 } else { 0 }; self.pins[n].set_value(value)`. -/
def signalGo (level n : Nat) : Bank → Bank
  | [] => []
  | q :: rest => (q.1, { q.2 with value := if n > level then 1 else 0 }) :: signalGo level (n + 1) rest

/-- Embeds `GPIO::signal`'s loop with fallible writes, from loop index `n` on:
a failed `set_value` aborts via `?`, leaving that pin and the rest untouched. -/
def signalFrom (f : Faults) (level n : Nat) : Bank → Bank × Option GErr
  | [] => ([], none)
  | (no, p) :: rest =>
    match f.setValErr no with
    | some e => ((no, p) :: rest, some (GErr.rawFail e))
    | none =>
      match signalFrom f level (n + 1) rest with
      | (rest', err) => ((no, { p with value := if n > level then 1 else 0 }) :: rest', err)

/-- Embeds `GPIO::signal(level)`: iterate over indices `0..len`. -/
def signalBank (f : Faults) (level : Nat) (b : Bank) : Bank × Option GErr :=
  signalFrom f level 0 b

/-- Fault oracle for the C5 counterexample: `set_direction` on sysfs
pin 13 (bank index 2) fails with cause "EIO"; everything else succeeds. -/
def cexFaults : Faults :=
  { exportErr := fun _ => none
    getDirErr := fun _ => none
    setDirErr := fun no => if no = 13 then some "EIO" else none
    getValErr := fun _ => none
    setValErr := fun _ => none }

/-- A fresh bank: nothing exported, direction in, value 0. -/
def freshBank : Bank := newPins ⟨false, Dir.input, 0⟩

/-- The bank state `init` leaves behind in the C5 counterexample run. -/
def cexBank : Bank :=
  [(11, initState), (12, initState), (13, ⟨true, Dir.input, 0⟩),
   (14, ⟨false, Dir.input, 0⟩), (15, ⟨false, Dir.input, 0⟩),
   (16, ⟨false, Dir.input, 0⟩), (17, ⟨false, Dir.input, 0⟩),
   (18, ⟨false, Dir.input, 0⟩)]

/-- The writes `init` performs in the C5 counterexample run. -/
def cexWrites : List WriteEv :=
  [WriteEv.wExport 11, WriteEv.wSetDir 11 Dir.output, WriteEv.wSetVal 11 1,
   WriteEv.wExport 12, WriteEv.wSetDir 12 Dir.output, WriteEv.wSetVal 12 1,
   WriteEv.wExport 13]

/-- Luma threshold in the GPIO-driving capture callback (`main_camera.rs`). -/
def treshold : Nat := 230

/-- Luma threshold in the preview renderer (`main_camera_nannou.rs`, `view`). -/
def viewTreshold : Nat := 200

/-- The level divisor `pindiv` in the capture callback. -/
def pindiv : Nat := 100

/-- The inner column loop of the sampling code: read `frame[offset]`,
bump the count when the byte exceeds the threshold, advance by 2. -/
def scanCols (frame : List Nat) (t : Nat) : Nat → Nat → Nat → Nat × Nat
  | 0, offset, global => (offset, global)
  | cols + 1, offset, global =>
    scanCols frame t cols (offset + 2)
      (if frame.getD offset 0 > t then global + 1 else global)

/-- The outer row loop: 640 columns per row, offset threaded through. -/
def scanRows (frame : List Nat) (t : Nat) : Nat → Nat → Nat → Nat × Nat
  | 0, offset, global => (offset, global)
  | rows + 1, offset, global =>
    match scanCols frame t 640 offset global with
    | (offset', global') => scanRows frame t rows offset' global'

/-- The `global` count the capture callback computes over a 640x480 frame
with threshold 230. -/
def captureGlobal (frame : List Nat) : Nat := (scanRows frame treshold 480 0 0).2

/-- The `global` count the preview renderer re-derives over the shared
frame with threshold 200. -/
def renderGlobal (frame : List Nat) : Nat := (scanRows frame viewTreshold 480 0 0).2

/-- Count of sampled bytes (offsets `0, 2, ..., 2*(n-1)`) strictly above
the threshold, stated as the spec states it. -/
def specCount (frame : List Nat) (t n : Nat) : Nat :=
  (List.range n).countP (fun i => decide (frame.getD (2 * i) 0 > t))

/-- The level argument the capture callback passes to the pin bank:
`gpio.signal(global / pindiv)`, with no clamping. -/
def levelPassed (global : Nat) : Nat := global / pindiv

/-- Modelled from the spec's `LevelMapper` contract:
`clamp(floor(count / divisor), 0, pinCount - 1)` (the lower clamp is
trivial over naturals). -/
def clampLevel (c divisor pinCount : Nat) : Nat := min (c / divisor) (pinCount - 1)

/-- Reference count: number of sampled bytes above `t` among `m` samples
starting at byte `offset`, stride 2. -/
def countFrom (frame : List Nat) (t : Nat) : Nat → Nat → Nat
  | 0, _ => 0
  | m + 1, offset =>
    (if frame.getD offset 0 > t then 1 else 0) + countFrom frame t m (offset + 2)

/-- State of the `RwLock` guarding the shared frame slot: how many read
guards are live and whether a write guard is held. -/
structure LockState where
  readers : Nat
  writerHeld : Bool
deriving DecidableEq, Repr

/-- Availability of `std::sync::RwLock::write()`: it can be acquired only when no reader and
no writer holds the lock; until then the caller blocks. -/
def writeAvailable (l : LockState) : Bool := l.readers == 0 && !l.writerHeld

/-- Embeds `try_read()`: never blocks; yields the buffer unless a writer holds
the lock, in which case it yields nothing (the render tick is skipped). -/
def tryReadSlot (l : LockState) (buf : List Nat) : Option (List Nat) :=
  if l.writerHeld then none else some buf

/-- Embeds `instance.clear()` on the locked slot buffer. -/
def clearBuf (_buf : List Nat) : List Nat := []

/-- Embeds `instance.append(&mut Vec::from(_frame.to_bytes()))`. -/
def appendBuf (buf extra : List Nat) : List Nat := buf ++ extra

/-- Embeds `publish`: under the write lock, clear the slot then append the new
frame's bytes; the intermediate cleared state is invisible to readers. -/
def publishBuf (buf frame : List Nat) : List Nat := appendBuf (clearBuf buf) frame

/-- A USB device as the capture code sees it: bus number, device
address, and the outcome `dev.open()` would produce. -/
structure UvcDevice where
  bus : Nat
  address : Nat
  openResult : Except String Unit
deriving Repr

/-- Embeds `ctx.devices()?.find(|d| bus==d.bus_number() && address==d.device_address())`. -/
def findDevice (devs : List UvcDevice) (bus addr : Nat) : Option UvcDevice :=
  devs.find? (fun d => bus == d.bus && addr == d.address)

/-- The remediation hint printed on an access-denied open
(`sudo chmod 0666 /dev/bus/usb/BUS/ADDR`). -/
def accessHint : String := "Access error, run: sudo chmod 0666 /dev/bus/usb/BUS/ADDR"

/-- Outcome of the modelled `capture_video` front end. -/
inductive CaptureOutcome
  | cleanExit (msg : String)
  | openError (cause : String)
  | proceed
deriving DecidableEq, Repr

/-- Embeds `capture_video`'s device lookup, open and GPIO-init sequence: a
missing device or an access-denied open prints a diagnostic and returns
`Ok(())` before any GPIO operation; any other open failure is returned
as an error, also before any GPIO operation; otherwise the GPIO bank is
initialized and capture proceeds.  Returns the outcome paired with the
hardware writes performed. -/
def captureVideo (devs : List UvcDevice) (bus addr : Nat) (f : Faults) (b : Bank) :
    CaptureOutcome × List WriteEv :=
  match findDevice devs bus addr with
  | none => (CaptureOutcome.cleanExit "Device not found", [])
  | some d =>
    match d.openResult with
    | Except.error e =>
      if e = "Access denied" then (CaptureOutcome.cleanExit accessHint, [])
      else (CaptureOutcome.openError e, [])
    | Except.ok _ => (CaptureOutcome.proceed, (initBank f b).2.1)

/-! Lemmas, claim theorems, counterexamples and witnesses. -/

lemma signalFrom_noFault (f : Faults) (hf : ∀ no, f.setValErr no = none)
    (level : Nat) : ∀ (b : Bank) (n : Nat), signalFrom f level n b = (signalGo level n b, none) := by
  intro b
  induction b with
  | nil => intro n; rfl
  | cons q rest ih =>
    intro n
    obtain ⟨no, p⟩ := q
    simp [signalFrom, signalGo, hf no, ih (n + 1)]

lemma signalGo_length (level : Nat) : ∀ (b : Bank) (n : Nat), (signalGo level n b).length = b.length := by
  intro b
  induction b with
  | nil => intro n; rfl
  | cons q rest ih => intro n; simp [signalGo, ih (n + 1)]

lemma signalGo_fst (level : Nat) :
    ∀ (b : Bank) (n : Nat), (signalGo level n b).map Prod.fst = b.map Prod.fst := by
  intro b
  induction b with
  | nil => intro n; rfl
  | cons q rest ih => intro n; simp [signalGo, ih (n + 1)]

lemma signalGo_values (level : Nat) :
    ∀ (b : Bank) (n : Nat), (signalGo level n b).map (fun q => q.2.value) =
      (List.range b.length).map (fun i => if n + i ≤ level then 0 else 1) := by
  intro b
  induction b with
  | nil => intro n; rfl
  | cons q rest ih =>
    intro n
    simp only [signalGo, List.map_cons, List.length_cons, List.range_succ_eq_map,
      List.map_map, ih (n + 1)]
    congr 1
    · split <;> split <;> omega
    · apply List.map_congr_left
      intro i _
      simp only [Function.comp, Nat.succ_eq_add_one]
      have h : n + 1 + i = n + (i + 1) := by omega
      rw [h]

lemma signalGo_count (level : Nat) :
    ∀ (b : Bank) (n : Nat),
      (signalGo level n b).countP (fun q => q.2.value == 0) = min (level + 1 - n) b.length := by
  intro b
  induction b with
  | nil => intro n; simp [signalGo]
  | cons q rest ih =>
    intro n
    simp only [signalGo, List.countP_cons, ih (n + 1), List.length_cons]
    split
    · next h =>
      have : ¬ (n ≤ level) := by omega
      simp only [this, if_false, beq_iff_eq]
      norm_num
      omega
    · next h =>
      have : n ≤ level := by omega
      simp only [beq_iff_eq]
      norm_num
      omega

lemma signalGo_all_active (level : Nat) :
    ∀ (b : Bank) (n : Nat), n + b.length ≤ level + 1 →
      ∀ q ∈ signalGo level n b, q.2.value = 0 := by
  intro b
  induction b with
  | nil => intro n _ q hq; simp [signalGo] at hq
  | cons x rest ih =>
    intro n hn q hq
    simp only [signalGo, List.mem_cons] at hq
    rcases hq with hq | hq
    · subst hq
      simp only [List.length_cons] at hn
      have : ¬ (n > level) := by omega
      simp [this]
    · exact ih (n + 1) (by simp at hn ⊢; omega) q hq

/-- C2: for every level `L < pinCount` and every bank, if every
individual pin write succeeds, `signal(L)` succeeds and leaves pin `i`
at value 0 exactly when `i ≤ L` (value 1 otherwise): a contiguous
thermometer pattern with exactly `L + 1` active pins. -/
theorem signal_thermometer (f : Faults) (L : Nat) (b : Bank)
    (hf : ∀ no, f.setValErr no = none) (hL : L < b.length) :
    (signalBank f L b).2 = none ∧
    (signalBank f L b).1.map (fun q => q.2.value) =
      (List.range b.length).map (fun i => if i ≤ L then 0 else 1) ∧
    (signalBank f L b).1.countP (fun q => q.2.value == 0) = L + 1 := by
  unfold signalBank
  rw [signalFrom_noFault f hf L b 0]
  refine ⟨rfl, ?_, ?_⟩
  · rw [signalGo_values L b 0]
    apply List.map_congr_left
    intro i _
    simp
  · rw [signalGo_count L b 0]
    omega

/-- Witness for `signal_thermometer` at `L = 3` on a fresh 8-pin bank. -/
theorem signal_thermometer_witness :
    (∀ no, noneFaults.setValErr no = none) ∧ 3 < (newPins ⟨false, Dir.input, 0⟩).length ∧
    (signalBank noneFaults 3 (newPins ⟨false, Dir.input, 0⟩)).1.countP
      (fun q => q.2.value == 0) = 4 :=
  ⟨fun _ => rfl, by decide,
    (signal_thermometer noneFaults 3 (newPins ⟨false, Dir.input, 0⟩)
      (fun _ => rfl) (by decide)).2.2⟩

/-- C10: `signal` is total in its level argument: for every level it
touches exactly the bank's pins (length and pin numbers preserved, no
out-of-bounds indexing), and for every level `≥ pinCount - 1` it drives
every pin active (value 0) — the unclamped quotient passed by the
capture loop still yields the full thermometer bar. -/
theorem signal_total_saturates (f : Faults) (b : Bank)
    (hf : ∀ no, f.setValErr no = none) :
    (∀ L, (signalBank f L b).1.length = b.length ∧
      (signalBank f L b).1.map Prod.fst = b.map Prod.fst) ∧
    (∀ L, b.length ≤ L + 1 → ∀ q ∈ (signalBank f L b).1, q.2.value = 0) := by
  constructor
  · intro L
    unfold signalBank
    rw [signalFrom_noFault f hf L b 0]
    exact ⟨signalGo_length L b 0, signalGo_fst L b 0⟩
  · intro L hL q hq
    unfold signalBank at hq
    rw [signalFrom_noFault f hf L b 0] at hq
    exact signalGo_all_active L b 0 (by omega) q hq

/-- Witness for `signal_total_saturates` at the unclamped Scenario A
level 3072 on a fresh 8-pin bank: all 8 pins end active. -/
theorem signal_total_saturates_witness :
    (∀ no, noneFaults.setValErr no = none) ∧
    (newPins ⟨false, Dir.input, 0⟩).length ≤ 3072 + 1 ∧
    (∀ q ∈ (signalBank noneFaults 3072 (newPins ⟨false, Dir.input, 0⟩)).1, q.2.value = 0) :=
  ⟨fun _ => rfl, by decide,
    (signal_total_saturates noneFaults (newPins ⟨false, Dir.input, 0⟩)
      (fun _ => rfl)).2 3072 (by decide)⟩

lemma exportStep_ok (f : Faults) (no : Nat) (p : PinState)
    (h : (exportStep f no p).2.2 = none) :
    (exportStep f no p).1 = { p with exported := true } := by
  unfold exportStep at h ⊢
  by_cases he : p.exported = true
  · simp only [if_pos he] at h ⊢
    obtain ⟨e, d, v⟩ := p
    simp_all
  · simp only [if_neg he] at h ⊢
    cases hq : f.exportErr no with
    | some e => rw [hq] at h; simp at h
    | none => rfl

lemma exportStep_err_shape (f : Faults) (no : Nat) (p : PinState) (e : GErr)
    (h : (exportStep f no p).2.2 = some e) : ∃ c, e = GErr.exportFail no c := by
  unfold exportStep at h
  by_cases he : p.exported = true
  · simp [if_pos he] at h
  · simp only [if_neg he] at h
    cases hq : f.exportErr no with
    | some c => rw [hq] at h; simp only [Option.some.injEq] at h; exact ⟨c, h.symm⟩
    | none => rw [hq] at h; simp at h

lemma dirStep_ok (f : Faults) (no : Nat) (p : PinState)
    (h : (dirStep f no p).2.2 = none) :
    (dirStep f no p).1 = { p with direction := Dir.output } := by
  unfold dirStep at h ⊢
  cases hg : f.getDirErr no with
  | some e => rw [hg] at h; simp at h
  | none =>
    rw [hg] at h
    by_cases hd : p.direction = Dir.output
    · simp only [if_pos hd] at h ⊢
      obtain ⟨e, d, v⟩ := p
      simp_all
    · simp only [if_neg hd] at h ⊢
      cases hs : f.setDirErr no with
      | some e => rw [hs] at h; simp at h
      | none => rfl

lemma dirStep_err_shape (f : Faults) (no : Nat) (p : PinState) (e : GErr)
    (h : (dirStep f no p).2.2 = some e) : ∃ c, e = GErr.rawFail c := by
  unfold dirStep at h
  cases hg : f.getDirErr no with
  | some c => rw [hg] at h; simp only [Option.some.injEq] at h; exact ⟨c, h.symm⟩
  | none =>
    rw [hg] at h
    by_cases hd : p.direction = Dir.output
    · simp [if_pos hd] at h
    · simp only [if_neg hd] at h
      cases hs : f.setDirErr no with
      | some c => rw [hs] at h; simp only [Option.some.injEq] at h; exact ⟨c, h.symm⟩
      | none => rw [hs] at h; simp at h

lemma valStep_ok (f : Faults) (no : Nat) (p : PinState)
    (h : (valStep f no p).2.2 = none) :
    (valStep f no p).1 = { p with value := 1 } := by
  unfold valStep at h ⊢
  cases hg : f.getValErr no with
  | some e => rw [hg] at h; simp at h
  | none =>
    rw [hg] at h
    by_cases hv : p.value = 1
    · simp only [if_pos hv] at h ⊢
      obtain ⟨e, d, v⟩ := p
      simp_all
    · simp only [if_neg hv] at h ⊢
      cases hs : f.setValErr no with
      | some e => rw [hs] at h; simp at h
      | none => rfl

lemma valStep_err_shape (f : Faults) (no : Nat) (p : PinState) (e : GErr)
    (h : (valStep f no p).2.2 = some e) : ∃ c, e = GErr.rawFail c := by
  unfold valStep at h
  cases hg : f.getValErr no with
  | some c => rw [hg] at h; simp only [Option.some.injEq] at h; exact ⟨c, h.symm⟩
  | none =>
    rw [hg] at h
    by_cases hv : p.value = 1
    · simp [if_pos hv] at h
    · simp only [if_neg hv] at h
      cases hs : f.setValErr no with
      | some c => rw [hs] at h; simp only [Option.some.injEq] at h; exact ⟨c, h.symm⟩
      | none => rw [hs] at h; simp at h

lemma initPin_ok (f : Faults) (no : Nat) (p : PinState)
    (h : (initPin f no p).2.2 = none) : (initPin f no p).1 = initState := by
  unfold initPin at h ⊢
  split at h
  · next p1 w1 e heq => simp at h
  · next p1 w1 heq =>
    simp only [heq]
    split at h
    · next p2 w2 e heq2 => simp at h
    · next p2 w2 heq2 =>
      simp only [heq2]
      split at h
      next p3 w3 e3 heq3 =>
        simp only [heq3]
        simp only at h
        subst h
        have h1 : p1 = { p with exported := true } := by
          have := exportStep_ok f no p (by rw [heq]); rw [heq] at this; exact this
        have h2 : p2 = { p1 with direction := Dir.output } := by
          have := dirStep_ok f no p1 (by rw [heq2]); rw [heq2] at this; exact this
        have h3 : p3 = { p2 with value := 1 } := by
          have := valStep_ok f no p2 (by rw [heq3]); rw [heq3] at this; exact this
        subst h1 h2 h3
        obtain ⟨e, d, v⟩ := p
        rfl

lemma initPin_export_name (f : Faults) (no : Nat) (p : PinState)
    (no' : Nat) (c : String)
    (h : (initPin f no p).2.2 = some (GErr.exportFail no' c)) : no' = no := by
  unfold initPin at h
  split at h
  · next p1 w1 e heq =>
    simp only [Option.some.injEq] at h
    obtain ⟨c', hc⟩ := exportStep_err_shape f no p e (by rw [heq])
    rw [h] at hc
    simp only [GErr.exportFail.injEq] at hc
    exact hc.1
  · next p1 w1 heq =>
    split at h
    · next p2 w2 e heq2 =>
      simp only [Option.some.injEq] at h
      obtain ⟨c', hc⟩ := dirStep_err_shape f no p1 e (by rw [heq2])
      rw [h] at hc
      exact absurd hc (by simp)
    · next p2 w2 heq2 =>
      split at h
      next p3 w3 e3 heq3 =>
        simp only at h
        obtain ⟨c', hc⟩ := valStep_err_shape f no p2 _ (by rw [heq3, h])
        exact absurd hc (by simp)

lemma initPin_noFaults (f : Faults) (h : NoFaults f) (no : Nat) (p : PinState) :
    (initPin f no p).1 = initState ∧ (initPin f no p).2.2 = none := by
  obtain ⟨h1, h2, h3, h4, h5⟩ := h no
  obtain ⟨e, d, v⟩ := p
  simp only [initPin, exportStep, dirStep, valStep, h1, h2, h3, h4, h5]
  cases e <;> cases d <;> by_cases hv : v = 1 <;> simp [hv, initState]

lemma initPin_initState (f : Faults) (h : NoFaults f) (no : Nat) :
    initPin f no initState = (initState, [], none) := by
  obtain ⟨h1, h2, h3, h4, h5⟩ := h no
  simp [initPin, exportStep, dirStep, valStep, initState, h1, h2, h3, h4, h5]

lemma initBank_noFaults (f : Faults) (h : NoFaults f) (b : Bank) :
    (initBank f b).1 = b.map (fun q => (q.1, initState)) ∧ (initBank f b).2.2 = none := by
  induction b with
  | nil => simp [initBank]
  | cons q rest ih =>
    obtain ⟨no, p⟩ := q
    obtain ⟨hp1, hp2⟩ := initPin_noFaults f h no p
    rcases hq : initPin f no p with ⟨p', ws, e⟩
    rw [hq] at hp1 hp2
    simp only at hp1 hp2
    subst hp1 hp2
    rcases hr : initBank f rest with ⟨rest', ws', e'⟩
    rw [hr] at ih
    have ih1 : rest' = rest.map (fun q => (q.1, initState)) := ih.1
    have ih2 : e' = none := ih.2
    simp only [initBank, hq, hr, List.map_cons]
    exact ⟨by rw [ih1], ih2⟩

lemma initBank_initStates (f : Faults) (h : NoFaults f) (b : Bank) :
    initBank f (b.map (fun q => (q.1, initState))) = (b.map (fun q => (q.1, initState)), [], none) := by
  induction b with
  | nil => simp [initBank]
  | cons q rest ih =>
    simp only [List.map_cons, initBank, initPin_initState f h q.1, ih, List.nil_append]

/-- C6: under a fault-free oracle, `init` succeeds leaving every pin
exported, direction out, value 1; running it a second time yields the
same final pin states and performs no state-changing writes (each of
export, direction-set and value-set is guarded by a check). -/
theorem init_idempotent (f : Faults) (b : Bank) (h : NoFaults f) :
    (initBank f b).2.2 = none ∧
    (∀ q ∈ (initBank f b).1, q.2 = initState) ∧
    (initBank f (initBank f b).1).1 = (initBank f b).1 ∧
    (initBank f (initBank f b).1).2.1 = [] ∧
    (initBank f (initBank f b).1).2.2 = none := by
  obtain ⟨h1, h2⟩ := initBank_noFaults f h b
  refine ⟨h2, ?_, ?_, ?_, ?_⟩
  · intro q hq
    rw [h1] at hq
    simp only [List.mem_map] at hq
    obtain ⟨x, _, hx⟩ := hq
    rw [← hx]
  · rw [h1, initBank_initStates f h b]
  · rw [h1, initBank_initStates f h b]
  · rw [h1, initBank_initStates f h b]

/-- Witness for `init_idempotent` on the fault-free oracle and a fresh
8-pin bank. -/
theorem init_idempotent_witness :
    NoFaults noneFaults ∧
    (initBank noneFaults (initBank noneFaults (newPins ⟨false, Dir.input, 0⟩)).1).1 =
      (initBank noneFaults (newPins ⟨false, Dir.input, 0⟩)).1 ∧
    (initBank noneFaults (initBank noneFaults (newPins ⟨false, Dir.input, 0⟩)).1).2.1 = [] :=
  have hnf : NoFaults noneFaults := fun _ => ⟨rfl, rfl, rfl, rfl, rfl⟩
  have h := init_idempotent noneFaults (newPins ⟨false, Dir.input, 0⟩) hnf
  ⟨hnf, h.2.2.1, h.2.2.2.1⟩

/-- C5 counterexample: a direction-set failure on pin 13 makes `init`
return the raw cause "EIO"; the error does not identify the failing
pin's index (only export failures are wrapped with the pin number). -/
theorem init_error_names_pin_cex :
    (initBank cexFaults freshBank).2.2 = some (GErr.rawFail "EIO") ∧
    ((initBank cexFaults freshBank).2.2.map errPinNo) = some none := by
  exact ⟨by decide, by decide⟩

/-- C5 (amended): when `init` fails, the bank splits as
`pre ++ x :: post` at the failing pin `x`: every pin before `x` is left
fully initialized (exported, out, value 1), `x` is left in the partial
state its own `initPin` run produced, pins after `x` are untouched (no
rollback), the error is the one `x`'s run produced, and it names the
failing pin's number exactly when it is an export failure. -/
theorem init_failure_prefix (f : Faults) (b b' : Bank) (ws : List WriteEv) (e : GErr)
    (h : initBank f b = (b', ws, some e)) :
    ∃ pre x px post,
      b = pre ++ x :: post ∧
      b' = pre.map (fun q => (q.1, initState)) ++ (x.1, px) :: post ∧
      (initPin f x.1 x.2).1 = px ∧
      (initPin f x.1 x.2).2.2 = some e ∧
      (∀ no c, e = GErr.exportFail no c → no = x.1) := by
  induction b generalizing b' ws with
  | nil => simp [initBank] at h
  | cons q rest ih =>
    obtain ⟨no, p⟩ := q
    rcases hp : initPin f no p with ⟨p', wsp, ep⟩
    cases ep with
    | some e0 =>
      simp only [initBank, hp] at h
      simp only [Prod.mk.injEq, Option.some.injEq] at h
      obtain ⟨hb', hws, he⟩ := h
      refine ⟨[], (no, p), p', rest, rfl, ?_, ?_, ?_, ?_⟩
      · simpa using hb'.symm
      · rw [hp]
      · rw [hp, he]
      · intro no' c hc
        apply initPin_export_name f no p no' c
        rw [hp, he, hc]
    | none =>
      rcases hr : initBank f rest with ⟨rest', ws', e'⟩
      simp only [initBank, hp, hr] at h
      simp only [Prod.mk.injEq] at h
      obtain ⟨hb', hws, he'⟩ := h
      rw [he'] at hr
      obtain ⟨pre, x, px, post, hsplit, hstates, hpx, herr, hname⟩ := ih rest' ws' hr
      have hpok : p' = initState := by
        have := initPin_ok f no p (by rw [hp])
        rw [hp] at this
        exact this
      refine ⟨(no, p) :: pre, x, px, post, by rw [hsplit]; rfl, ?_, hpx, herr, hname⟩
      rw [← hb', hstates, hpok]
      simp

/-- Witness for `init_failure_prefix` on the concrete C5 run. -/
theorem init_failure_prefix_witness :
    initBank cexFaults freshBank = (cexBank, cexWrites, some (GErr.rawFail "EIO")) ∧
    ∃ pre x px post,
      freshBank = pre ++ x :: post ∧
      cexBank = pre.map (fun q => (q.1, initState)) ++ (x.1, px) :: post ∧
      (initPin cexFaults x.1 x.2).1 = px ∧
      (initPin cexFaults x.1 x.2).2.2 = some (GErr.rawFail "EIO") ∧
      (∀ no c, GErr.rawFail "EIO" = GErr.exportFail no c → no = x.1) :=
  ⟨by decide,
    init_failure_prefix cexFaults freshBank cexBank cexWrites (GErr.rawFail "EIO") (by decide)⟩

lemma scanCols_eq (frame : List Nat) (t : Nat) :
    ∀ (c offset g : Nat), scanCols frame t c offset g =
      (offset + 2 * c, g + countFrom frame t c offset) := by
  intro c
  induction c with
  | zero => intro offset g; simp [scanCols, countFrom]
  | succ c ih =>
    intro offset g
    rw [scanCols, ih (offset + 2)]
    simp only [countFrom, Prod.mk.injEq]
    constructor
    · omega
    · split_ifs <;> omega

lemma countFrom_add (frame : List Nat) (t : Nat) :
    ∀ (a b offset : Nat), countFrom frame t (a + b) offset =
      countFrom frame t a offset + countFrom frame t b (offset + 2 * a) := by
  intro a
  induction a with
  | zero => intro b offset; simp [countFrom]
  | succ a ih =>
    intro b offset
    have h1 : a + 1 + b = (a + b) + 1 := by omega
    rw [h1]
    simp only [countFrom]
    rw [ih b (offset + 2)]
    have h2 : offset + 2 + 2 * a = offset + 2 * (a + 1) := by ring
    rw [h2]
    omega

lemma scanRows_eq (frame : List Nat) (t : Nat) :
    ∀ (r offset g : Nat), scanRows frame t r offset g =
      (offset + 2 * (640 * r), g + countFrom frame t (640 * r) offset) := by
  intro r
  induction r with
  | zero => intro offset g; simp [scanRows, countFrom]
  | succ r ih =>
    intro offset g
    simp only [scanRows, scanCols_eq, ih]
    have h1 : 640 * (r + 1) = 640 + 640 * r := by ring
    rw [h1, countFrom_add frame t 640 (640 * r) offset]
    simp only [Prod.mk.injEq]
    constructor
    · omega
    · omega

lemma countFrom_spec (frame : List Nat) (t : Nat) :
    ∀ (m a : Nat), countFrom frame t m (2 * a) =
      (List.range m).countP (fun i => decide (frame.getD (2 * (a + i)) 0 > t)) := by
  intro m
  induction m with
  | zero => intro a; simp [countFrom]
  | succ m ih =>
    intro a
    simp only [countFrom]
    have h2 : 2 * a + 2 = 2 * (a + 1) := by ring
    rw [h2, ih (a + 1)]
    rw [List.range_succ_eq_map, List.countP_cons, List.countP_map]
    have hcong :
        (List.range m).countP
            ((fun i => decide (frame.getD (2 * (a + i)) 0 > t)) ∘ Nat.succ)
          = (List.range m).countP (fun i => decide (frame.getD (2 * (a + 1 + i)) 0 > t)) := by
      apply List.countP_congr
      intro x _
      have hx : 2 * (a + (x + 1)) = 2 * (a + 1 + x) := by ring
      simp only [Function.comp_apply, Nat.succ_eq_add_one, hx]
    rw [hcong]
    have h0 : 2 * (a + 0) = 2 * a := by ring
    simp only [h0, decide_eq_true_eq]
    split_ifs <;> omega

lemma scan_global_spec (frame : List Nat) (t : Nat) :
    (scanRows frame t 480 0 0).2 = specCount frame t (640 * 480) := by
  rw [scanRows_eq]
  unfold specCount
  rw [show countFrom frame t (640 * 480) 0 = countFrom frame t (640 * 480) (2 * 0) from rfl,
    countFrom_spec]
  simp

lemma getD_replicate (v d : Nat) : ∀ (n i : Nat), i < n → (List.replicate n v).getD i d = v := by
  intro n
  induction n with
  | zero => intro i h; omega
  | succ n ih =>
    intro i h
    cases i with
    | zero => rfl
    | succ i => exact ih i (by omega)

lemma specCount_replicate (v t n m : Nat) (h : ∀ i, i < m → 2 * i < n) :
    specCount (List.replicate n v) t m = if v > t then m else 0 := by
  unfold specCount
  by_cases hv : v > t
  · rw [if_pos hv]
    rw [List.countP_eq_length.mpr, List.length_range]
    intro i hi
    rw [getD_replicate v 0 n (2 * i) (h i (List.mem_range.mp hi))]
    simpa using hv
  · rw [if_neg hv]
    rw [List.countP_eq_zero.mpr]
    intro i hi
    rw [getD_replicate v 0 n (2 * i) (h i (List.mem_range.mp hi))]
    simpa using hv

/-- C3: for every frame of at least `640*480*2` bytes, the count the
capture callback computes equals the number of bytes at offsets
`0, 2, ..., 2*(640*480 - 1)` strictly greater than the threshold; on a
uniform frame of luma `v` it is `640*480` when `v` exceeds the threshold
and 0 otherwise. -/
theorem capture_count_spec (frame : List Nat) (h : frame.length ≥ 640 * 480 * 2) :
    captureGlobal frame = specCount frame treshold (640 * 480) ∧
    (∀ v, captureGlobal (List.replicate (640 * 480 * 2) v) =
      if v > treshold then 640 * 480 else 0) := by
  constructor
  · exact scan_global_spec frame treshold
  · intro v
    rw [captureGlobal, scan_global_spec]
    exact specCount_replicate v treshold (640 * 480 * 2) (640 * 480) (by omega)

/-- Witness for `capture_count_spec` on the all-zero frame. -/
theorem capture_count_spec_witness :
    (List.replicate 614400 0).length ≥ 640 * 480 * 2 ∧
    captureGlobal (List.replicate 614400 0) =
      specCount (List.replicate 614400 0) treshold (640 * 480) :=
  ⟨by rw [List.length_replicate], (capture_count_spec (List.replicate 614400 0)
    (by rw [List.length_replicate])).1⟩

/-- C4 counterexample: on the uniform frame of luma 215, the capture-side
sampler (threshold 230) counts 0 while the preview renderer (threshold
200) counts 307200 — the re-derived metric differs from the capture-side
one on the same bytes. -/
theorem render_metric_differs_cex :
    captureGlobal (List.replicate 614400 215) = 0 ∧
    renderGlobal (List.replicate 614400 215) = 307200 ∧
    renderGlobal (List.replicate 614400 215) ≠ captureGlobal (List.replicate 614400 215) := by
  have hc : captureGlobal (List.replicate 614400 215) = 0 := by
    rw [captureGlobal, scan_global_spec,
      specCount_replicate 215 treshold 614400 (640 * 480) (by omega)]
    rfl
  have hr : renderGlobal (List.replicate 614400 215) = 307200 := by
    rw [renderGlobal, scan_global_spec,
      specCount_replicate 215 viewTreshold 614400 (640 * 480) (by omega)]
    rfl
  exact ⟨hc, hr, by rw [hc, hr]; omega⟩

/-- C4 (amended): renderer and capture side each compute the metric by
the same stride-2 counting scheme (`specCount`), but at different
thresholds — 200 in the renderer, 230 on the capture side; on a frame
none of whose sampled bytes lies in the window (200, 230] the two
counts coincide. -/
theorem render_metric_same_scheme (frame : List Nat)
    (h : ∀ i, i < 640 * 480 →
      ¬(viewTreshold < frame.getD (2 * i) 0 ∧ frame.getD (2 * i) 0 ≤ treshold)) :
    renderGlobal frame = specCount frame viewTreshold (640 * 480) ∧
    captureGlobal frame = specCount frame treshold (640 * 480) ∧
    renderGlobal frame = captureGlobal frame := by
  refine ⟨scan_global_spec frame viewTreshold, scan_global_spec frame treshold, ?_⟩
  rw [renderGlobal, captureGlobal, scan_global_spec, scan_global_spec]
  unfold specCount
  apply List.countP_congr
  intro i hi
  have hi' := List.mem_range.mp hi
  have hw := h i hi'
  unfold treshold viewTreshold at *
  constructor
  · intro hx
    simp only [decide_eq_true_eq] at hx ⊢
    omega
  · intro hx
    simp only [decide_eq_true_eq] at hx ⊢
    omega

/-- Witness for `render_metric_same_scheme` on the uniform luma-255
frame (255 is outside the window (200, 230]). -/
theorem render_metric_same_scheme_witness :
    (∀ i, i < 640 * 480 →
      ¬(viewTreshold < (List.replicate 614400 255).getD (2 * i) 0 ∧
        (List.replicate 614400 255).getD (2 * i) 0 ≤ treshold)) ∧
    renderGlobal (List.replicate 614400 255) = captureGlobal (List.replicate 614400 255) :=
  have hwin : ∀ i, i < 640 * 480 →
      ¬(viewTreshold < (List.replicate 614400 255).getD (2 * i) 0 ∧
        (List.replicate 614400 255).getD (2 * i) 0 ≤ treshold) := by
    intro i hi
    rw [getD_replicate 255 0 614400 (2 * i) (by omega)]
    unfold treshold viewTreshold
    omega
  ⟨hwin, (render_metric_same_scheme (List.replicate 614400 255) hwin).2.2⟩

/-- C1 counterexample: for the Scenario A frame (640x480, every luma 255,
threshold 230) the brightness count is 307200, but the level the capture
callback passes to the pin bank is the raw quotient 3072 — not
`clamp(3072, 0, 7) = 7` as the claim states. -/
theorem level_passed_clamp_cex :
    captureGlobal (List.replicate 614400 255) = 307200 ∧
    levelPassed 307200 = 3072 ∧
    clampLevel 307200 pindiv 8 = 7 ∧
    levelPassed 307200 ≠ clampLevel 307200 pindiv 8 := by
  refine ⟨?_, by decide, by decide, by decide⟩
  rw [captureGlobal, scan_global_spec,
    specCount_replicate 255 treshold 614400 (640 * 480) (by omega)]
  rfl

lemma signalGo_congr (L L' : Nat) :
    ∀ (b : Bank) (n : Nat), (∀ k, n ≤ k → k < n + b.length → (k > L ↔ k > L')) →
      signalGo L n b = signalGo L' n b := by
  intro b
  induction b with
  | nil => intro n _; rfl
  | cons q rest ih =>
    intro n h
    simp only [signalGo, List.cons.injEq]
    constructor
    · have hn := h n (Nat.le_refl n) (by simp only [List.length_cons]; omega)
      rw [if_congr hn rfl rfl]
    · apply ih
      intro k hk1 hk2
      exact h k (by omega) (by simp only [List.length_cons]; omega)

/-- C1 (amended): the capture callback passes the unclamped quotient
`count / 100` to `signal`, but on an 8-pin bank the pin states `signal`
produces for it are exactly those of the clamped level
`clamp(count / 100, 0, 7)` — so the level effectively applied to the
pins never exceeds `pinCount - 1`; at the Scenario A count 307200
(quotient 3072) every pin ends active. -/
theorem level_applied_clamped (f : Faults) (b : Bank) (c : Nat)
    (hf : ∀ no, f.setValErr no = none) (hb : b.length = 8) :
    (signalBank f (levelPassed c) b).1 = (signalBank f (clampLevel c pindiv 8) b).1 ∧
    (∀ q ∈ (signalBank f (levelPassed 307200) b).1, q.2.value = 0) := by
  constructor
  · unfold signalBank
    rw [signalFrom_noFault f hf, signalFrom_noFault f hf]
    apply congrArg (fun x => (x, (none : Option GErr)).1)
    apply signalGo_congr
    intro k hk1 hk2
    rw [hb] at hk2
    unfold levelPassed clampLevel pindiv
    omega
  · intro q hq
    unfold signalBank at hq
    rw [signalFrom_noFault f hf] at hq
    apply signalGo_all_active (levelPassed 307200) b 0 _ q hq
    have : levelPassed 307200 = 3072 := by decide
    omega

/-- Witness for `level_applied_clamped` on a fresh 8-pin bank at the
Scenario A count. -/
theorem level_applied_clamped_witness :
    (∀ no, noneFaults.setValErr no = none) ∧ freshBank.length = 8 ∧
    (signalBank noneFaults (levelPassed 307200) freshBank).1 =
      (signalBank noneFaults (clampLevel 307200 pindiv 8) freshBank).1 :=
  ⟨fun _ => rfl, by decide,
    (level_applied_clamped noneFaults freshBank 307200 (fun _ => rfl) (by decide)).1⟩

lemma foldl_publish (buf : List Nat) :
    ∀ (fs : List (List Nat)), List.foldl publishBuf buf fs = fs.getLastD buf := by
  intro fs
  induction fs generalizing buf with
  | nil => rfl
  | cons x rest ih =>
    rw [List.foldl_cons, ih (publishBuf buf x), List.getLastD_cons]
    cases rest with
    | nil => rfl
    | cons y ys => rfl

/-- C7: `publish` replaces the slot's entire contents with exactly the
published frame's bytes (clear, then append, so the result has the
frame's length); hence after any sequence of publishes the slot holds
the most recently published complete frame, and a `try_read` that finds
no writer returns exactly that frame — never a mixture of frames. -/
theorem publish_replaces (buf frame : List Nat) (fs : List (List Nat))
    (l : LockState) (hl : l.writerHeld = false) :
    publishBuf buf frame = frame ∧
    (publishBuf buf frame).length = frame.length ∧
    List.foldl publishBuf buf fs = fs.getLastD buf ∧
    tryReadSlot l (List.foldl publishBuf buf fs) = some (fs.getLastD buf) := by
  refine ⟨rfl, rfl, foldl_publish buf fs, ?_⟩
  rw [foldl_publish buf fs]
  simp [tryReadSlot, hl]

/-- Witness for `publish_replaces`: two publishes into an idle-lock slot. -/
theorem publish_replaces_witness :
    (LockState.mk 0 false).writerHeld = false ∧
    List.foldl publishBuf [0, 0] [[1, 2], [3, 4]] = [3, 4] ∧
    tryReadSlot (LockState.mk 0 false) (List.foldl publishBuf [0, 0] [[1, 2], [3, 4]]) =
      some [3, 4] :=
  have h := publish_replaces [0, 0] [9] [[1, 2], [3, 4]] (LockState.mk 0 false) rfl
  ⟨rfl, h.2.2.1, h.2.2.2⟩

/-- C9 counterexample: with one live reader and no writer, the write
lock is not available — `publish` (which uses the blocking `write()`)
must wait for the reader, so the producer can block on the consumer. -/
theorem publish_never_waits_cex :
    (LockState.mk 1 false).writerHeld = false ∧
    0 < (LockState.mk 1 false).readers ∧
    writeAvailable (LockState.mk 1 false) = false := by decide

/-- C9 (amended): `try_read` never blocks — it immediately yields
nothing when a writer holds the lock and the buffer otherwise; `publish`
acquires the write lock only when no reader and no writer holds it, so
it can be made to wait by a live reader, holding exclusive access only
for the copy itself. -/
theorem tryread_nonblocking (l : LockState) (buf : List Nat)
    (h : l.writerHeld = false) :
    tryReadSlot l buf = some buf ∧
    tryReadSlot { l with writerHeld := true } buf = none ∧
    (writeAvailable l = true ↔ l.readers = 0) := by
  refine ⟨by simp [tryReadSlot, h], by simp [tryReadSlot], ?_⟩
  simp [writeAvailable, h]

/-- Witness for `tryread_nonblocking` with two live readers. -/
theorem tryread_nonblocking_witness :
    (LockState.mk 2 false).writerHeld = false ∧
    tryReadSlot (LockState.mk 2 false) [5] = some [5] ∧
    ¬(writeAvailable (LockState.mk 2 false) = true) :=
  have h := tryread_nonblocking (LockState.mk 2 false) [5] rfl
  ⟨rfl, h.1, by decide⟩

/-- C8: a bus:address absent from the enumeration, or a device whose
open is refused with "Access denied", makes `capture_video` report a
diagnostic (the remediation hint in the access-denied case) and return
success, with no pin exported, direction-set or written; any other open
failure propagates as an error. -/
theorem capture_expected_failures (devs : List UvcDevice) (bus addr : Nat)
    (f : Faults) (b : Bank) :
    (findDevice devs bus addr = none →
      captureVideo devs bus addr f b = (CaptureOutcome.cleanExit "Device not found", [])) ∧
    (∀ d, findDevice devs bus addr = some d →
      d.openResult = Except.error "Access denied" →
      captureVideo devs bus addr f b = (CaptureOutcome.cleanExit accessHint, [])) ∧
    (∀ d e, findDevice devs bus addr = some d → d.openResult = Except.error e →
      e ≠ "Access denied" →
      captureVideo devs bus addr f b = (CaptureOutcome.openError e, [])) := by
  refine ⟨?_, ?_, ?_⟩
  · intro h
    simp [captureVideo, h]
  · intro d h1 h2
    simp [captureVideo, h1, h2]
  · intro d e h1 h2 h3
    simp [captureVideo, h1, h2, h3]

/-- Witness for `capture_expected_failures` against an empty device
enumeration. -/
theorem capture_expected_failures_witness :
    findDevice [] 1 2 = none ∧
    captureVideo [] 1 2 noneFaults freshBank =
      (CaptureOutcome.cleanExit "Device not found", []) :=
  ⟨rfl, (capture_expected_failures [] 1 2 noneFaults freshBank).1 rfl⟩

end Maimai
